import Mathlib

/-!
Shallow embedding of the Path Comparison and Statistics Engine of
`compare_missions.py` (class `MissionComparator`), together with proofs of
the specification claims about it.

Numeric model: all scalar telemetry values are rationals.  The haversine
distance `calculate_distance` calls transcendental functions, so the
comparison engine is embedded parametrically over a distance oracle
`cd : latitude1 -> longitude1 -> latitude2 -> longitude2 -> distance`;
every claim below is about the selection and accumulation logic, which is
independent of the concrete distance values, and is proved for every such
oracle (in particular for the haversine).  Likewise `math.sqrt`, used only
inside reported standard-deviation and rms values, is a parameter `sq`.
Python's float infinity, used as the initial minimum distance in
`find_closest_point`, is modelled as the top element of `WithTop Rat`, and
its paired `None` result as `Option`.
-/

namespace CompareMissions

/-- A parsed VTT telemetry record, mirroring the dict built in
`parse_vtt_telemetry` (fields in source order); heading, latitude,
longitude, depth and altitude may be missing. -/
structure TelemetryPoint where
  time_seconds : ℚ
  time_str : String
  heading : Option ℚ
  latitude : Option ℚ
  longitude : Option ℚ
  depth : Option ℚ
  altitude : Option ℚ
  deriving DecidableEq

/-- A planned waypoint, mirroring the dict built in `load_mission_json`;
latitude and longitude are always present there. -/
structure Waypoint where
  latitude : ℚ
  longitude : ℚ
  depth : ℚ
  control_mode : String
  yaw_deg : ℚ
  deriving DecidableEq

/-- The validity test used throughout the source:
whether latitude and longitude are both not `None`. -/
def hasPosition (p : TelemetryPoint) : Prop :=
  p.latitude ≠ none ∧ p.longitude ≠ none

instance (p : TelemetryPoint) : Decidable (hasPosition p) :=
  inferInstanceAs (Decidable (p.latitude ≠ none ∧ p.longitude ≠ none))

/-- Distance between two telemetry points through the distance oracle,
as called at lines 185-188 and 210-213 of the source. -/
def pointDist (cd : ℚ → ℚ → ℚ → ℚ → ℚ) (a b : TelemetryPoint) : ℚ :=
  cd (a.latitude.getD 0) (a.longitude.getD 0) (b.latitude.getD 0) (b.longitude.getD 0)

/-- Distance from a telemetry point to a waypoint, as called at
lines 317-320 of the source. -/
def waypointDist (cd : ℚ → ℚ → ℚ → ℚ → ℚ) (a : TelemetryPoint) (w : Waypoint) : ℚ :=
  cd (a.latitude.getD 0) (a.longitude.getD 0) w.latitude w.longitude

/-- The loop of `find_closest_point`: state is the pair
(closest_point, min_distance), started at (None, float inf). -/
def fcpAux (cd : ℚ → ℚ → ℚ → ℚ → ℚ) (target : TelemetryPoint) :
    List TelemetryPoint → Option TelemetryPoint × WithTop ℚ →
    Option TelemetryPoint × WithTop ℚ
  | [], s => s
  | p :: ps, s =>
    if hasPosition p then
      if (pointDist cd target p : WithTop ℚ) < s.2 then
        fcpAux cd target ps (some p, (pointDist cd target p : WithTop ℚ))
      else
        fcpAux cd target ps s
    else
      fcpAux cd target ps s

/-- `MissionComparator.find_closest_point` (source lines 178-193). -/
def find_closest_point (cd : ℚ → ℚ → ℚ → ℚ → ℚ) (target_point : TelemetryPoint)
    (path_points : List TelemetryPoint) : Option TelemetryPoint × WithTop ℚ :=
  fcpAux cd target_point path_points (none, ⊤)

/-- The loop of `resample_path_by_distance` from index 1 on: `prev` is the
previous input point and `acc` the running cumulative distance. -/
def resampleAux (cd : ℚ → ℚ → ℚ → ℚ → ℚ) (interval_m : ℚ) :
    List TelemetryPoint → TelemetryPoint → ℚ → List TelemetryPoint
  | [], _, _ => []
  | curr :: rest, prev, acc =>
    if hasPosition prev ∧ hasPosition curr then
      if interval_m ≤ acc + pointDist cd prev curr then
        curr :: resampleAux cd interval_m rest curr 0
      else
        resampleAux cd interval_m rest curr (acc + pointDist cd prev curr)
    else
      resampleAux cd interval_m rest curr acc

/-- `MissionComparator.resample_path_by_distance` (source lines 195-221). -/
def resample_path_by_distance (cd : ℚ → ℚ → ℚ → ℚ → ℚ)
    (telemetry_data : List TelemetryPoint) (interval_m : ℚ) : List TelemetryPoint :=
  match telemetry_data with
  | [] => []
  | p :: rest => p :: resampleAux cd interval_m rest p 0

/-- Cumulative distance travelling from `prev` through the listed points
to `q`: the arc length of the original input segments lying between two
points of the path. -/
def pathDistFrom (cd : ℚ → ℚ → ℚ → ℚ → ℚ) (prev : TelemetryPoint) :
    List TelemetryPoint → TelemetryPoint → ℚ
  | [], q => pointDist cd prev q
  | x :: xs, q => pointDist cd prev x + pathDistFrom cd x xs q

/-- Python `statistics.mean`. -/
def mean (l : List ℚ) : ℚ := l.sum / l.length

/-- Python `sorted` on a list of rationals. -/
def sortedList (l : List ℚ) : List ℚ := l.mergeSort

/-- Python `statistics.median`: middle element for odd counts, average of
the two middle elements for even counts. -/
def median (l : List ℚ) : ℚ :=
  if l.length % 2 = 1 then (sortedList l).getD (l.length / 2) 0
  else ((sortedList l).getD (l.length / 2 - 1) 0 + (sortedList l).getD (l.length / 2) 0) / 2

/-- Python `max` on a non-empty list (0 on the empty list, on which the
source never calls it). -/
def pyMax : List ℚ → ℚ
  | [] => 0
  | x :: xs => xs.foldl max x

/-- Python `min` on a non-empty list (0 on the empty list, on which the
source never calls it). -/
def pyMin : List ℚ → ℚ
  | [] => 0
  | x :: xs => xs.foldl min x

/-- Python `statistics.stdev`: square root of the sample variance, with
the square root supplied as the oracle `sq`. -/
def stdev (sq : ℚ → ℚ) (l : List ℚ) : ℚ :=
  sq ((l.map (fun x => (x - mean l) ^ 2)).sum / ((l.length : ℚ) - 1))

/-- The root-mean-square expression of source lines 269 and 341. -/
def rmsOf (sq : ℚ → ℚ) (l : List ℚ) : ℚ :=
  sq ((l.map (fun x => x ^ 2)).sum / l.length)

/-- The 95th-percentile expression of source lines 270 and 342:
the element at sorted index `int(0.95 * n)` when `n > 20`, otherwise the
maximum.  `19 * n / 20` in natural division is exactly
the floor of `0.95 * n`. -/
def percentile_95 (l : List ℚ) : ℚ :=
  if 20 < l.length then (sortedList l).getD (19 * l.length / 20) 0 else pyMax l

/-- The circular heading difference of source lines 255-257. -/
def heading_difference (a b : ℚ) : ℚ :=
  if 180 < |a - b| then 360 - |a - b| else |a - b|

/-- The deviation-collection loop of `calculate_path_statistics`
(source lines 232-258): returns
(distances, depth_differences, altitude_differences, heading_differences). -/
def collectDeviations (cd : ℚ → ℚ → ℚ → ℚ → ℚ)
    (r1 r2 : List TelemetryPoint) : List ℚ × List ℚ × List ℚ × List ℚ :=
  r1.foldl (fun s point1 =>
    if hasPosition point1 then
      match find_closest_point cd point1 r2 with
      | (some closest_point2, distance) =>
        (s.1 ++ [distance.untop' 0],
         (match point1.depth, closest_point2.depth with
          | some d1, some d2 => s.2.1 ++ [|d1 - d2|]
          | _, _ => s.2.1),
         (match point1.altitude, closest_point2.altitude with
          | some a1, some a2 => s.2.2.1 ++ [|a1 - a2|]
          | _, _ => s.2.2.1),
         (match point1.heading, closest_point2.heading with
          | some h1, some h2 => s.2.2.2 ++ [heading_difference h1 h2]
          | _, _ => s.2.2.2))
      | (none, _) => s
    else s) ([], [], [], [])

/-- `MissionComparator.calculate_path_statistics` (source lines 223-297);
the returned dict of dicts is modelled as an association list in the
insertion order of the source. -/
def calculate_path_statistics (cd : ℚ → ℚ → ℚ → ℚ → ℚ) (sq : ℚ → ℚ)
    (path1 path2 : List TelemetryPoint) : List (String × List (String × ℚ)) :=
  if path1 = [] ∨ path2 = [] then []
  else
    let resampled_path1 := resample_path_by_distance cd path1 (1 / 2)
    let resampled_path2 := resample_path_by_distance cd path2 (1 / 2)
    let c := collectDeviations cd resampled_path1 resampled_path2
    let distances := c.1
    let depth_differences := c.2.1
    let altitude_differences := c.2.2.1
    let heading_differences := c.2.2.2
    (if distances = [] then []
     else [(("position_stats"),
       [(("mean_distance_m"), mean distances),
        (("median_distance_m"), median distances),
        (("std_distance_m"), if 1 < distances.length then stdev sq distances else 0),
        (("max_distance_m"), pyMax distances),
        (("min_distance_m"), pyMin distances),
        (("rms_distance_m"), rmsOf sq distances),
        (("percentile_95_m"), percentile_95 distances)])]) ++
    (if depth_differences = [] then []
     else [(("depth_stats"),
       [(("mean_diff_m"), mean depth_differences),
        (("median_diff_m"), median depth_differences),
        (("std_diff_m"), if 1 < depth_differences.length then stdev sq depth_differences else 0),
        (("max_diff_m"), pyMax depth_differences)])]) ++
    (if altitude_differences = [] then []
     else [(("altitude_stats"),
       [(("mean_diff_m"), mean altitude_differences),
        (("median_diff_m"), median altitude_differences),
        (("std_diff_m"),
          if 1 < altitude_differences.length then stdev sq altitude_differences else 0),
        (("max_diff_m"), pyMax altitude_differences)])]) ++
    (if heading_differences = [] then []
     else [(("heading_stats"),
       [(("mean_diff_deg"), mean heading_differences),
        (("median_diff_deg"), median heading_differences),
        (("std_diff_deg"),
          if 1 < heading_differences.length then stdev sq heading_differences else 0),
        (("max_diff_deg"), pyMax heading_differences)])])

/-- The inline nearest-waypoint loop of `calculate_accuracy_to_planned`
(source lines 313-323): state (closest_waypoint, min_distance) started at
(None, float inf); waypoints always carry a position, so no validity test. -/
def fcwAux (cd : ℚ → ℚ → ℚ → ℚ → ℚ) (t : TelemetryPoint) :
    List Waypoint → Option Waypoint × WithTop ℚ → Option Waypoint × WithTop ℚ
  | [], s => s
  | w :: ws, s =>
    if (waypointDist cd t w : WithTop ℚ) < s.2 then
      fcwAux cd t ws (some w, (waypointDist cd t w : WithTop ℚ))
    else
      fcwAux cd t ws s

/-- The accuracy deviation-collection loop (source lines 307-331):
returns (distances_to_planned, depth_errors). -/
def collectAccuracy (cd : ℚ → ℚ → ℚ → ℚ → ℚ)
    (rt : List TelemetryPoint) (planned : List Waypoint) : List ℚ × List ℚ :=
  rt.foldl (fun s telem_point =>
    if hasPosition telem_point then
      match fcwAux cd telem_point planned (none, ⊤) with
      | (some closest_waypoint, min_distance) =>
        (s.1 ++ [min_distance.untop' 0],
         (match telem_point.depth with
          | some dp => s.2 ++ [|dp - closest_waypoint.depth|]
          | none => s.2))
      | (none, _) => s
    else s) ([], [])

/-- `MissionComparator.calculate_accuracy_to_planned`
(source lines 299-353). -/
def calculate_accuracy_to_planned (cd : ℚ → ℚ → ℚ → ℚ → ℚ) (sq : ℚ → ℚ)
    (telemetry_data : List TelemetryPoint) (planned_waypoints : List Waypoint) :
    List (String × List (String × ℚ)) :=
  if telemetry_data = [] ∨ planned_waypoints = [] then []
  else
    let resampled_telemetry := resample_path_by_distance cd telemetry_data (1 / 2)
    let c := collectAccuracy cd resampled_telemetry planned_waypoints
    let distances_to_planned := c.1
    let depth_errors := c.2
    (if distances_to_planned = [] then []
     else [(("position_accuracy"),
       [(("mean_error_m"), mean distances_to_planned),
        (("median_error_m"), median distances_to_planned),
        (("std_error_m"),
          if 1 < distances_to_planned.length then stdev sq distances_to_planned else 0),
        (("max_error_m"), pyMax distances_to_planned),
        (("rms_error_m"), rmsOf sq distances_to_planned),
        (("percentile_95_m"), percentile_95 distances_to_planned)])]) ++
    (if depth_errors = [] then []
     else [(("depth_accuracy"),
       [(("mean_error_m"), mean depth_errors),
        (("median_error_m"), median depth_errors),
        (("std_error_m"), if 1 < depth_errors.length then stdev sq depth_errors else 0),
        (("max_error_m"), pyMax depth_errors)])])

/-- Distance oracle used for concrete witnesses: constant distance 1. -/
def cdOne : ℚ → ℚ → ℚ → ℚ → ℚ := fun _ _ _ _ => 1

/-- A concrete fully-populated telemetry point. -/
def ptA : TelemetryPoint := ⟨0, ("t0"), some 10, some 1, some 2, some 5, some 2⟩

/-- A second concrete fully-populated telemetry point. -/
def ptB : TelemetryPoint := ⟨1, ("t1"), some 30, some 3, some 4, some 3, some 1⟩

/-- A concrete telemetry point lacking latitude and longitude. -/
def ptBad : TelemetryPoint := ⟨2, ("tb"), none, none, none, none, none⟩

/-- A concrete waypoint. -/
def wpA : Waypoint := ⟨7, 8, 9, ("manual"), 0⟩

theorem resampleAux_sublist (cd : ℚ → ℚ → ℚ → ℚ → ℚ) (iv : ℚ) :
    ∀ (rest : List TelemetryPoint) (prev : TelemetryPoint) (acc : ℚ),
      (resampleAux cd iv rest prev acc).Sublist rest
  | [], _, _ => by simp [resampleAux]
  | curr :: rest, prev, acc => by
    rw [resampleAux]
    split_ifs with h1 h2
    · exact List.Sublist.cons₂ curr (resampleAux_sublist cd iv rest curr 0)
    · exact List.Sublist.cons curr (resampleAux_sublist cd iv rest curr _)
    · exact List.Sublist.cons curr (resampleAux_sublist cd iv rest curr acc)

theorem resample_sublist (cd : ℚ → ℚ → ℚ → ℚ → ℚ) (t : List TelemetryPoint) (iv : ℚ) :
    (resample_path_by_distance cd t iv).Sublist t := by
  cases t with
  | nil => simp [resample_path_by_distance]
  | cons p rest =>
    rw [resample_path_by_distance]
    exact List.Sublist.cons₂ p (resampleAux_sublist cd iv rest p 0)

theorem resampleAux_mem (cd : ℚ → ℚ → ℚ → ℚ → ℚ) (iv : ℚ) :
    ∀ (rest : List TelemetryPoint) (prev : TelemetryPoint) (acc : ℚ)
      (p : TelemetryPoint), p ∈ resampleAux cd iv rest prev acc →
      ∃ u q v, prev :: rest = u ++ q :: p :: v ∧ hasPosition q ∧ hasPosition p
  | [], _, _, _ => by simp [resampleAux]
  | curr :: rest, prev, acc, p => by
    rw [resampleAux]
    split_ifs with h1 h2
    · intro hp
      rcases List.mem_cons.mp hp with hpc | hrec
      · subst hpc
        exact ⟨[], prev, rest, rfl, h1.1, h1.2⟩
      · obtain ⟨u, q, v, hdec, hq, hp2⟩ := resampleAux_mem cd iv rest curr 0 p hrec
        exact ⟨prev :: u, q, v, by rw [List.cons_append, ← hdec], hq, hp2⟩
    · intro hp
      obtain ⟨u, q, v, hdec, hq, hp2⟩ := resampleAux_mem cd iv rest curr _ p hp
      exact ⟨prev :: u, q, v, by rw [List.cons_append, ← hdec], hq, hp2⟩
    · intro hp
      obtain ⟨u, q, v, hdec, hq, hp2⟩ := resampleAux_mem cd iv rest curr acc p hp
      exact ⟨prev :: u, q, v, by rw [List.cons_append, ← hdec], hq, hp2⟩

theorem resample_tail_mem (cd : ℚ → ℚ → ℚ → ℚ → ℚ) (t : List TelemetryPoint) (iv : ℚ)
    (p : TelemetryPoint) (hp : p ∈ (resample_path_by_distance cd t iv).drop 1) :
    ∃ u q v, t = u ++ q :: p :: v ∧ hasPosition q ∧ hasPosition p := by
  cases t with
  | nil => simp [resample_path_by_distance] at hp
  | cons p0 rest =>
    rw [resample_path_by_distance] at hp
    simp only [List.drop_succ_cons, List.drop_zero] at hp
    exact resampleAux_mem cd iv rest p0 0 p hp

/-- Claim C10: every resampled point other than the first occurs in the
input immediately after a point that also has a valid position, and is
itself valid. -/
theorem claim_C10 (cd : ℚ → ℚ → ℚ → ℚ → ℚ) (t : List TelemetryPoint) (iv : ℚ)
    (p : TelemetryPoint) (hp : p ∈ (resample_path_by_distance cd t iv).drop 1) :
    ∃ u q v, t = u ++ q :: p :: v ∧ hasPosition q ∧ hasPosition p :=
  resample_tail_mem cd t iv p hp

/-- Witness for claim C10 at a concrete input. -/
theorem claim_C10_witness :
    ∃ u q v, [ptA, ptB] = u ++ q :: ptB :: v ∧ hasPosition q ∧ hasPosition ptB :=
  claim_C10 cdOne [ptA, ptB] 1 ptB (by
    simp [resample_path_by_distance, resampleAux, cdOne, ptA, ptB, hasPosition, pointDist])

/-- Claim C3: the resampler output is a subsequence of its input, hence
never longer; the empty input gives the empty output and a single-point
input gives exactly that point. -/
theorem claim_C3 (cd : ℚ → ℚ → ℚ → ℚ → ℚ) (t : List TelemetryPoint) (iv : ℚ) :
    (resample_path_by_distance cd t iv).Sublist t ∧
    (resample_path_by_distance cd t iv).length ≤ t.length ∧
    (t = [] → resample_path_by_distance cd t iv = []) ∧
    (∀ p, t = [p] → resample_path_by_distance cd t iv = [p]) := by
  refine ⟨resample_sublist cd t iv, (resample_sublist cd t iv).length_le, ?_, ?_⟩
  · intro h; subst h; rfl
  · intro p h; subst h; rfl

/-- Witness for claim C3 at a concrete input. -/
theorem claim_C3_witness :
    resample_path_by_distance cdOne [ptA] 1 = [ptA] :=
  (claim_C3 cdOne [ptA] 1).2.2.2 ptA rfl

theorem resampleAux_head_emit (cd : ℚ → ℚ → ℚ → ℚ → ℚ) (iv : ℚ) :
    ∀ (rest : List TelemetryPoint) (prev : TelemetryPoint) (acc : ℚ)
      (y : TelemetryPoint) (o : List TelemetryPoint),
      hasPosition prev → (∀ p ∈ rest, hasPosition p) →
      resampleAux cd iv rest prev acc = y :: o →
      ∃ mid v, rest = mid ++ y :: v ∧ iv ≤ acc + pathDistFrom cd prev mid y ∧
        o = resampleAux cd iv v y 0
  | [], prev, acc, y, o => by
    intro _ _ h
    simp [resampleAux] at h
  | curr :: rest, prev, acc, y, o => by
    intro hprev hrest heq
    have hc : hasPosition curr := hrest curr (List.mem_cons_self curr rest)
    rw [resampleAux, if_pos ⟨hprev, hc⟩] at heq
    by_cases hemit : iv ≤ acc + pointDist cd prev curr
    · rw [if_pos hemit] at heq
      injection heq with hy ho
      subst hy
      exact ⟨[], rest, rfl, by simpa [pathDistFrom] using hemit, ho.symm⟩
    · rw [if_neg hemit] at heq
      obtain ⟨mid, v, hdec, hsum, ho⟩ :=
        resampleAux_head_emit cd iv rest curr (acc + pointDist cd prev curr) y o hc
          (fun p hp => hrest p (List.mem_cons_of_mem curr hp)) heq
      refine ⟨curr :: mid, v, by rw [List.cons_append, hdec], ?_, ho⟩
      rw [pathDistFrom]
      linarith

theorem resampleAux_gapsN (cd : ℚ → ℚ → ℚ → ℚ → ℚ) (iv : ℚ) :
    ∀ (n : ℕ) (rest : List TelemetryPoint) (prev : TelemetryPoint) (acc : ℚ),
      rest.length ≤ n → hasPosition prev → (∀ p ∈ rest, hasPosition p) →
      ∀ (pre : List TelemetryPoint) (x y : TelemetryPoint) (post : List TelemetryPoint),
        resampleAux cd iv rest prev acc = pre ++ x :: y :: post →
        ∃ u mid v, rest = u ++ x :: mid ++ y :: v ∧ iv ≤ pathDistFrom cd x mid y := by
  intro n
  induction n with
  | zero =>
    intro rest prev acc hlen _ _ pre x y post heq
    have hnil : rest = [] := List.length_eq_zero.mp (Nat.le_zero.mp hlen)
    subst hnil
    rw [resampleAux] at heq
    exact absurd heq.symm (List.append_ne_nil_of_right_ne_nil pre (by simp))
  | succ n ih =>
    intro rest prev acc hlen hprev hrest pre x y post heq
    cases pre with
    | nil =>
      obtain ⟨mid1, v1, hdec1, _, ho1⟩ :=
        resampleAux_head_emit cd iv rest prev acc x (y :: post) hprev hrest heq
      have hx : hasPosition x :=
        hrest x (by rw [hdec1]; exact List.mem_append_right mid1 (List.mem_cons_self x v1))
      have hv1 : ∀ p ∈ v1, hasPosition p := fun p hp =>
        hrest p (by
          rw [hdec1]
          exact List.mem_append_right mid1 (List.mem_cons_of_mem x hp))
      obtain ⟨mid2, v2, hdec2, hsum2, _⟩ :=
        resampleAux_head_emit cd iv v1 x 0 y post hx hv1 ho1.symm
      refine ⟨mid1, mid2, v2, ?_, by linarith [hsum2]⟩
      rw [hdec1, hdec2]
      simp [List.append_assoc]
    | cons z pre2 =>
      rw [List.cons_append] at heq
      obtain ⟨mid1, v1, hdec1, _, ho1⟩ :=
        resampleAux_head_emit cd iv rest prev acc z (pre2 ++ x :: y :: post) hprev hrest heq
      have hz : hasPosition z :=
        hrest z (by rw [hdec1]; exact List.mem_append_right mid1 (List.mem_cons_self z v1))
      have hv1 : ∀ p ∈ v1, hasPosition p := fun p hp =>
        hrest p (by
          rw [hdec1]
          exact List.mem_append_right mid1 (List.mem_cons_of_mem z hp))
      have hlen1 : v1.length ≤ n := by
        have := congrArg List.length hdec1
        simp [List.length_append] at this
        omega
      obtain ⟨u, mid, v, hdec2, hsum⟩ := ih v1 z 0 hlen1 hz hv1 pre2 x y post ho1.symm
      refine ⟨mid1 ++ z :: u, mid, v, ?_, hsum⟩
      rw [hdec1, hdec2]
      simp [List.append_assoc]

/-- Claim C2: on an all-valid trajectory with a positive interval, any two
consecutive resampled points x and y have occurrences in the input between
which the cumulative oracle distance over the original input segments is
at least the interval. -/
theorem claim_C2 (cd : ℚ → ℚ → ℚ → ℚ → ℚ) (iv : ℚ) (t : List TelemetryPoint)
    (hiv : 0 < iv) (hvalid : ∀ p ∈ t, hasPosition p)
    (pre post : List TelemetryPoint) (x y : TelemetryPoint)
    (hout : resample_path_by_distance cd t iv = pre ++ x :: y :: post) :
    ∃ u mid v, t = u ++ x :: mid ++ y :: v ∧ iv ≤ pathDistFrom cd x mid y := by
  cases t with
  | nil =>
    rw [resample_path_by_distance] at hout
    exact absurd hout.symm (List.append_ne_nil_of_right_ne_nil pre (by simp))
  | cons p rest =>
    rw [resample_path_by_distance] at hout
    have hp : hasPosition p := hvalid p (List.mem_cons_self p rest)
    have hrest : ∀ q ∈ rest, hasPosition q := fun q hq =>
      hvalid q (List.mem_cons_of_mem p hq)
    cases pre with
    | nil =>
      injection hout with h1 h2
      subst h1
      obtain ⟨mid, v, hdec, hsum, _⟩ :=
        resampleAux_head_emit cd iv rest p 0 y post hp hrest h2
      exact ⟨[], mid, v, by rw [List.nil_append, hdec]; simp, by linarith [hsum]⟩
    | cons z pre2 =>
      rw [List.cons_append] at hout
      injection hout with h1 h2
      subst h1
      obtain ⟨u, mid, v, hdec, hsum⟩ :=
        resampleAux_gapsN cd iv rest.length rest p 0 le_rfl hp hrest pre2 x y post h2
      exact ⟨p :: u, mid, v, by rw [hdec]; simp, hsum⟩

/-- Witness for claim C2 at a concrete input. -/
theorem claim_C2_witness :
    ∃ u mid v, [ptA, ptB] = u ++ ptA :: mid ++ ptB :: v ∧
      (1 : ℚ) ≤ pathDistFrom cdOne ptA mid ptB :=
  claim_C2 cdOne 1 [ptA, ptB] (by norm_num)
    (by decide)
    [] [] ptA ptB
    (by
      norm_num [resample_path_by_distance, resampleAux, cdOne, hasPosition, ptA, ptB, pointDist]
      all_goals decide)

theorem fcpAux_skip_invalid (cd : ℚ → ℚ → ℚ → ℚ → ℚ) (t : TelemetryPoint) :
    ∀ (ps : List TelemetryPoint) (s : Option TelemetryPoint × WithTop ℚ),
      (∀ p ∈ ps, ¬ hasPosition p) → fcpAux cd t ps s = s
  | [], s => by
    intro _
    rw [fcpAux]
  | p :: ps, s => by
    intro h
    rw [fcpAux, if_neg (h p (List.mem_cons_self p ps))]
    exact fcpAux_skip_invalid cd t ps s fun q hq => h q (List.mem_cons_of_mem p hq)

theorem fcpAux_append (cd : ℚ → ℚ → ℚ → ℚ → ℚ) (t : TelemetryPoint) :
    ∀ (l1 l2 : List TelemetryPoint) (s : Option TelemetryPoint × WithTop ℚ),
      fcpAux cd t (l1 ++ l2) s = fcpAux cd t l2 (fcpAux cd t l1 s)
  | [], l2, s => by rw [List.nil_append, fcpAux]
  | p :: l1, l2, s => by
    rw [List.cons_append]
    simp only [fcpAux]
    split_ifs with h1 h2 <;> exact fcpAux_append cd t l1 l2 _

theorem fcpAux_run_some (cd : ℚ → ℚ → ℚ → ℚ → ℚ) (t : TelemetryPoint) :
    ∀ (ps : List TelemetryPoint) (c : TelemetryPoint), hasPosition c →
      ∃ r, fcpAux cd t ps (some c, (pointDist cd t c : WithTop ℚ)) =
          (some r, (pointDist cd t r : WithTop ℚ)) ∧ hasPosition r ∧
        ((r = c ∧ ∀ p ∈ ps, hasPosition p → pointDist cd t c ≤ pointDist cd t p) ∨
         (∃ u v, ps = u ++ r :: v ∧ pointDist cd t r < pointDist cd t c ∧
           (∀ q ∈ u, hasPosition q → pointDist cd t r < pointDist cd t q) ∧
           (∀ p ∈ v, hasPosition p → pointDist cd t r ≤ pointDist cd t p)))
  | [], c => by
    intro hc
    exact ⟨c, by rw [fcpAux], hc, Or.inl ⟨rfl, by simp⟩⟩
  | p :: ps, c => by
    intro hc
    by_cases hp : hasPosition p
    · by_cases hlt : pointDist cd t p < pointDist cd t c
      · have hstep : fcpAux cd t (p :: ps) (some c, (pointDist cd t c : WithTop ℚ)) =
            fcpAux cd t ps (some p, (pointDist cd t p : WithTop ℚ)) := by
          simp only [fcpAux]
          rw [if_pos hp, if_pos (WithTop.coe_lt_coe.mpr hlt)]
        obtain ⟨r, heq, hr, hdisj⟩ := fcpAux_run_some cd t ps p hp
        refine ⟨r, hstep.trans heq, hr, Or.inr ?_⟩
        rcases hdisj with ⟨req, hmin⟩ | ⟨u, v, hdec, hrlt, hu, hv⟩
        · subst req
          exact ⟨[], ps, rfl, hlt, by simp, hmin⟩
        · refine ⟨p :: u, v, by rw [hdec]; rfl, lt_trans hrlt hlt, ?_, hv⟩
          intro q hq hq2
          rcases List.mem_cons.mp hq with h | h
          · subst h; exact hrlt
          · exact hu q h hq2
      · have hstep : fcpAux cd t (p :: ps) (some c, (pointDist cd t c : WithTop ℚ)) =
            fcpAux cd t ps (some c, (pointDist cd t c : WithTop ℚ)) := by
          simp only [fcpAux]
          rw [if_pos hp, if_neg (fun h => hlt (WithTop.coe_lt_coe.mp h))]
        obtain ⟨r, heq, hr, hdisj⟩ := fcpAux_run_some cd t ps c hc
        refine ⟨r, hstep.trans heq, hr, ?_⟩
        rcases hdisj with ⟨req, hmin⟩ | ⟨u, v, hdec, hrlt, hu, hv⟩
        · refine Or.inl ⟨req, ?_⟩
          intro q hq hq2
          rcases List.mem_cons.mp hq with h | h
          · subst h; exact not_lt.mp hlt
          · exact hmin q h hq2
        · refine Or.inr ⟨p :: u, v, by rw [hdec]; rfl, hrlt, ?_, hv⟩
          intro q hq hq2
          rcases List.mem_cons.mp hq with h | h
          · subst h; exact lt_of_lt_of_le hrlt (not_lt.mp hlt)
          · exact hu q h hq2
    · have hstep : fcpAux cd t (p :: ps) (some c, (pointDist cd t c : WithTop ℚ)) =
          fcpAux cd t ps (some c, (pointDist cd t c : WithTop ℚ)) := by
        rw [fcpAux, if_neg hp]
      obtain ⟨r, heq, hr, hdisj⟩ := fcpAux_run_some cd t ps c hc
      refine ⟨r, hstep.trans heq, hr, ?_⟩
      rcases hdisj with ⟨req, hmin⟩ | ⟨u, v, hdec, hrlt, hu, hv⟩
      · refine Or.inl ⟨req, ?_⟩
        intro q hq hq2
        rcases List.mem_cons.mp hq with h | h
        · subst h; exact absurd hq2 hp
        · exact hmin q h hq2
      · refine Or.inr ⟨p :: u, v, by rw [hdec]; rfl, hrlt, ?_, hv⟩
        intro q hq hq2
        rcases List.mem_cons.mp hq with h | h
        · subst h; exact absurd hq2 hp
        · exact hu q h hq2

theorem exists_first_valid :
    ∀ (ps : List TelemetryPoint), (∃ p ∈ ps, hasPosition p) →
      ∃ u p0 rest, ps = u ++ p0 :: rest ∧ (∀ q ∈ u, ¬ hasPosition q) ∧ hasPosition p0
  | [] => by
    intro h
    simp at h
  | p :: ps => by
    intro hex
    by_cases hp : hasPosition p
    · exact ⟨[], p, ps, rfl, by simp, hp⟩
    · have hex2 : ∃ q ∈ ps, hasPosition q := by
        obtain ⟨q, hq, hq2⟩ := hex
        rcases List.mem_cons.mp hq with h | h
        · subst h; exact absurd hq2 hp
        · exact ⟨q, h, hq2⟩
      obtain ⟨u, p0, rest, hdec, hu, hp0⟩ := exists_first_valid ps hex2
      refine ⟨p :: u, p0, rest, by rw [hdec]; rfl, ?_, hp0⟩
      intro q hq
      rcases List.mem_cons.mp hq with h | h
      · subst h; exact hp
      · exact hu q h

theorem find_closest_point_spec (cd : ℚ → ℚ → ℚ → ℚ → ℚ) (t : TelemetryPoint)
    (ps : List TelemetryPoint) (hex : ∃ p ∈ ps, hasPosition p) :
    ∃ r u v, find_closest_point cd t ps = (some r, (pointDist cd t r : WithTop ℚ)) ∧
      hasPosition r ∧ ps = u ++ r :: v ∧
      (∀ p ∈ ps, hasPosition p → pointDist cd t r ≤ pointDist cd t p) ∧
      (∀ q ∈ u, hasPosition q → pointDist cd t r < pointDist cd t q) := by
  obtain ⟨w, p0, rest, hdec, hw, hp0⟩ := exists_first_valid ps hex
  have h1 : find_closest_point cd t ps = fcpAux cd t (p0 :: rest) (none, ⊤) := by
    rw [find_closest_point, hdec, fcpAux_append, fcpAux_skip_invalid cd t w _ hw]
  have h2 : fcpAux cd t (p0 :: rest) ((none : Option TelemetryPoint), (⊤ : WithTop ℚ)) =
      fcpAux cd t rest (some p0, (pointDist cd t p0 : WithTop ℚ)) := by
    simp only [fcpAux]
    rw [if_pos hp0, if_pos (WithTop.coe_lt_top _)]
  obtain ⟨r, heq, hr, hdisj⟩ := fcpAux_run_some cd t rest p0 hp0
  rcases hdisj with ⟨req, hmin⟩ | ⟨u2, v2, hdec2, hlt, hu2, hv2⟩
  · subst req
    refine ⟨r, w, rest, by rw [h1, h2, heq], hp0, hdec, ?_, ?_⟩
    · intro p hp hpos
      rw [hdec] at hp
      rcases List.mem_append.mp hp with h | h
      · exact absurd hpos (hw p h)
      · rcases List.mem_cons.mp h with h | h
        · subst h; exact le_refl _
        · exact hmin p h hpos
    · intro q hq hqpos
      exact absurd hqpos (hw q hq)
  · refine ⟨r, w ++ p0 :: u2, v2, by rw [h1, h2, heq], hr, ?_, ?_, ?_⟩
    · rw [hdec, hdec2]
      simp [List.append_assoc]
    · intro p hp hpos
      rw [hdec] at hp
      rcases List.mem_append.mp hp with h | h
      · exact absurd hpos (hw p h)
      · rcases List.mem_cons.mp h with h | h
        · subst h; exact le_of_lt hlt
        · rw [hdec2] at h
          rcases List.mem_append.mp h with h3 | h3
          · exact le_of_lt (hu2 p h3 hpos)
          · rcases List.mem_cons.mp h3 with h4 | h4
            · subst h4; exact le_refl _
            · exact hv2 p h4 hpos
    · intro q hq hqpos
      rcases List.mem_append.mp hq with h | h
      · exact absurd hqpos (hw q h)
      · rcases List.mem_cons.mp h with h | h
        · subst h; exact hlt
        · exact hu2 q h hqpos

theorem fcpAux_some_valid (cd : ℚ → ℚ → ℚ → ℚ → ℚ) (t : TelemetryPoint) :
    ∀ (ps : List TelemetryPoint) (s : Option TelemetryPoint × WithTop ℚ),
      (∀ c, s.1 = some c → hasPosition c) →
      ∀ (r : TelemetryPoint) (d : WithTop ℚ), fcpAux cd t ps s = (some r, d) → hasPosition r
  | [], s => by
    intro hs r d heq
    rw [fcpAux] at heq
    exact hs r (by rw [heq])
  | p :: ps, s => by
    intro hs r d heq
    rw [fcpAux] at heq
    split_ifs at heq with h1 h2
    · refine fcpAux_some_valid cd t ps _ ?_ r d heq
      intro c hc
      simp only [Option.some.injEq] at hc
      exact hc ▸ h1
    · exact fcpAux_some_valid cd t ps s hs r d heq
    · exact fcpAux_some_valid cd t ps s hs r d heq

theorem find_closest_point_some_valid (cd : ℚ → ℚ → ℚ → ℚ → ℚ) (t : TelemetryPoint)
    (ps : List TelemetryPoint) (r : TelemetryPoint) (d : WithTop ℚ)
    (h : find_closest_point cd t ps = (some r, d)) : hasPosition r :=
  fcpAux_some_valid cd t ps (none, ⊤) (by simp) r d h

/-- Claim C1: against a candidate list holding a valid point, the matcher
returns a valid candidate at minimal oracle distance together with that
distance, the first such candidate in sequence order winning ties (every
valid candidate strictly before it is strictly farther); and against a
single valid candidate it returns that candidate whatever the distance. -/
theorem claim_C1 (cd : ℚ → ℚ → ℚ → ℚ → ℚ) (target : TelemetryPoint)
    (ps : List TelemetryPoint) (htarget : hasPosition target)
    (hex : ∃ p ∈ ps, hasPosition p) :
    (∃ r u v, find_closest_point cd target ps =
        (some r, (pointDist cd target r : WithTop ℚ)) ∧
      hasPosition r ∧ ps = u ++ r :: v ∧
      (∀ p ∈ ps, hasPosition p → pointDist cd target r ≤ pointDist cd target p) ∧
      (∀ q ∈ u, hasPosition q → pointDist cd target r < pointDist cd target q)) ∧
    (∀ p, hasPosition p → find_closest_point cd target [p] =
      (some p, (pointDist cd target p : WithTop ℚ))) := by
  refine ⟨find_closest_point_spec cd target ps hex, ?_⟩
  intro p hp
  rw [find_closest_point]
  simp only [fcpAux]
  rw [if_pos hp, if_pos (WithTop.coe_lt_top _)]

/-- Witness for claim C1 at a concrete input. -/
theorem claim_C1_witness :
    find_closest_point cdOne ptA [ptB] = (some ptB, (pointDist cdOne ptA ptB : WithTop ℚ)) :=
  (claim_C1 cdOne ptA [ptB] (by decide) ⟨ptB, by simp, by decide⟩).2 ptB (by decide)

/-- Claim C5: against an empty or all-invalid candidate set the matcher
yields the distinguished no-candidate outcome: no point and the top
distance, which differs from every genuine point-distance result. -/
theorem claim_C5 (cd : ℚ → ℚ → ℚ → ℚ → ℚ) (target : TelemetryPoint)
    (ps : List TelemetryPoint) :
    ((∀ p ∈ ps, ¬ hasPosition p) →
      find_closest_point cd target ps = (none, ⊤)) ∧
    ((∃ p ∈ ps, hasPosition p) →
      ∃ r, find_closest_point cd target ps = (some r, (pointDist cd target r : WithTop ℚ))) ∧
    (∀ (r : TelemetryPoint) (dr : ℚ),
      ((none : Option TelemetryPoint), (⊤ : WithTop ℚ)) ≠ (some r, (dr : WithTop ℚ))) := by
  refine ⟨?_, ?_, ?_⟩
  · intro h
    exact fcpAux_skip_invalid cd target ps (none, ⊤) h
  · intro hex
    obtain ⟨r, _, _, heq, _⟩ := find_closest_point_spec cd target ps hex
    exact ⟨r, heq⟩
  · intro r dr h
    simp at h

/-- Witness for claim C5 at a concrete input. -/
theorem claim_C5_witness :
    find_closest_point cdOne ptA [ptBad] = (none, ⊤) :=
  (claim_C5 cdOne ptA [ptBad]).1 (by decide)

/-- Counterexample to claim C6 as stated: a first input point lacking
latitude and longitude still appears in the resampled output, because the
source emits the first point unconditionally (line 200). -/
theorem claim_C6_counterexample :
    ptBad ∈ resample_path_by_distance cdOne [ptBad] 1 ∧ ¬ hasPosition ptBad := by
  constructor
  · rw [resample_path_by_distance]
    exact List.mem_cons_self ptBad _
  · decide

/-- Claim C6 as amended: points lacking latitude or longitude are excluded
silently except at the very first input position, which is emitted
unconditionally: every output point after the first has a position, a
skipped point leaves the accumulator untouched (the loop state passes
`acc` through unchanged), and the matcher never returns an invalid
point. -/
theorem claim_C6 (cd : ℚ → ℚ → ℚ → ℚ → ℚ) (iv : ℚ) (t : List TelemetryPoint) :
    (∀ p ∈ (resample_path_by_distance cd t iv).drop 1, hasPosition p) ∧
    (∀ (curr prev : TelemetryPoint) (rest : List TelemetryPoint) (acc : ℚ),
      ¬ hasPosition curr →
      resampleAux cd iv (curr :: rest) prev acc = resampleAux cd iv rest curr acc) ∧
    (∀ (target : TelemetryPoint) (ps : List TelemetryPoint) (r : TelemetryPoint)
      (d : WithTop ℚ), find_closest_point cd target ps = (some r, d) → hasPosition r) := by
  refine ⟨?_, ?_, ?_⟩
  · intro p hp
    obtain ⟨_, _, _, _, _, hpos⟩ := resample_tail_mem cd t iv p hp
    exact hpos
  · intro curr prev rest acc hcurr
    rw [resampleAux, if_neg (fun h => hcurr h.2)]
  · intro target ps r d h
    exact find_closest_point_some_valid cd target ps r d h

/-- Witness for the amended claim C6 at a concrete input. -/
theorem claim_C6_witness :
    resampleAux cdOne 1 [ptBad] ptA 0 = resampleAux cdOne 1 [] ptBad 0 :=
  (claim_C6 cdOne 1 []).2.1 ptBad ptA [] 0 (by decide)

/-- Claim C9: the recorded circular heading difference equals
min of the absolute difference and 360 minus it, is symmetric, lies in
0..180 for headings in 0..360, and takes the two specified spot values. -/
theorem claim_C9 :
    (∀ a b : ℚ, 0 ≤ a → a ≤ 360 → 0 ≤ b → b ≤ 360 →
      heading_difference a b = min |a - b| (360 - |a - b|) ∧
      heading_difference a b = heading_difference b a ∧
      0 ≤ heading_difference a b ∧ heading_difference a b ≤ 180) ∧
    heading_difference 350 10 = 20 ∧ heading_difference 0 180 = 180 := by
  refine ⟨?_, ?_, ?_⟩
  · intro a b ha0 ha1 hb0 hb1
    have habs : |a - b| ≤ 360 := abs_le.mpr ⟨by linarith, by linarith⟩
    have hnn : 0 ≤ |a - b| := abs_nonneg (a - b)
    refine ⟨?_, ?_, ?_, ?_⟩
    · rw [heading_difference]
      rcases le_or_lt (|a - b|) 180 with h | h
      · rw [if_neg (not_lt.mpr h), min_eq_left (by linarith)]
      · rw [if_pos h, min_eq_right (by linarith)]
    · rw [heading_difference, heading_difference, abs_sub_comm]
    · rw [heading_difference]
      split_ifs with h
      · linarith
      · exact hnn
    · rw [heading_difference]
      split_ifs with h
      · linarith
      · exact not_lt.mp h
  · have h : |(350:ℚ) - 10| = 340 := by norm_num
    rw [heading_difference, h]
    norm_num
  · have h : |(0:ℚ) - 180| = 180 := by norm_num
    rw [heading_difference, h]
    norm_num

/-- Witness for claim C9 at concrete headings. -/
theorem claim_C9_witness :
    heading_difference 90 45 = min |(90:ℚ) - 45| (360 - |(90:ℚ) - 45|) ∧
    heading_difference 90 45 = heading_difference 45 90 ∧
    0 ≤ heading_difference 90 45 ∧ heading_difference (90:ℚ) 45 ≤ 180 :=
  claim_C9.1 90 45 (by norm_num) (by norm_num) (by norm_num) (by norm_num)

/-- Claim C8: each comparator returns the explicitly empty result when
either of its inputs is empty. -/
theorem claim_C8 (cd : ℚ → ℚ → ℚ → ℚ → ℚ) (sq : ℚ → ℚ)
    (path1 path2 telemetry : List TelemetryPoint) (waypoints : List Waypoint) :
    ((path1 = [] ∨ path2 = []) →
      calculate_path_statistics cd sq path1 path2 = []) ∧
    ((telemetry = [] ∨ waypoints = []) →
      calculate_accuracy_to_planned cd sq telemetry waypoints = []) := by
  constructor
  · intro h
    rw [calculate_path_statistics, if_pos h]
  · intro h
    rw [calculate_accuracy_to_planned, if_pos h]

/-- Witness for claim C8 at concrete inputs. -/
theorem claim_C8_witness :
    calculate_path_statistics cdOne id [] [ptA] = [] ∧
    calculate_accuracy_to_planned cdOne id [ptA] [] = [] :=
  ⟨(claim_C8 cdOne id [] [ptA] [ptA] []).1 (Or.inl rfl),
   (claim_C8 cdOne id [] [ptA] [ptA] []).2 (Or.inr rfl)⟩

theorem le_foldl_max_self : ∀ (l : List ℚ) (a : ℚ), a ≤ l.foldl max a
  | [], a => le_refl a
  | x :: xs, a => le_trans (le_max_left a x) (le_foldl_max_self xs (max a x))

theorem le_foldl_max_of_mem : ∀ (l : List ℚ) (a x : ℚ), x ∈ l → x ≤ l.foldl max a
  | [], _, x => by
    intro h
    simp at h
  | y :: ys, a, x => by
    intro h
    rcases List.mem_cons.mp h with h | h
    · subst h
      exact le_trans (le_max_right a x) (le_foldl_max_self ys (max a x))
    · exact le_foldl_max_of_mem ys (max a y) x h

theorem foldl_max_mem : ∀ (l : List ℚ) (a : ℚ), l.foldl max a = a ∨ l.foldl max a ∈ l
  | [], _ => Or.inl rfl
  | x :: xs, a => by
    rcases foldl_max_mem xs (max a x) with h | h
    · rcases max_choice a x with h2 | h2
      · exact Or.inl (by rw [List.foldl_cons, h, h2])
      · refine Or.inr ?_
        rw [List.foldl_cons, h, h2]
        exact List.mem_cons_self x xs
    · refine Or.inr (List.mem_cons_of_mem x ?_)
      rw [List.foldl_cons]
      exact h

theorem pyMax_mem : ∀ (l : List ℚ), l ≠ [] → pyMax l ∈ l
  | [], h => absurd rfl h
  | x :: xs, _ => by
    rw [pyMax]
    rcases foldl_max_mem xs x with h | h
    · rw [h]
      exact List.mem_cons_self x xs
    · exact List.mem_cons_of_mem x h

theorem le_pyMax (l : List ℚ) (x : ℚ) (h : x ∈ l) : x ≤ pyMax l := by
  cases l with
  | nil => simp at h
  | cons y ys =>
    rw [pyMax]
    rcases List.mem_cons.mp h with h2 | h2
    · subst h2
      exact le_foldl_max_self ys x
    · exact le_foldl_max_of_mem ys y x h2

theorem sorted_le_getD_last : ∀ (s : List ℚ), List.Sorted (· ≤ ·) s →
    ∀ x ∈ s, x ≤ s.getD (s.length - 1) 0
  | [], _, x => by
    intro h
    simp at h
  | a :: t, hs, x => by
    intro hx
    obtain ⟨ha, ht⟩ := List.sorted_cons.mp hs
    cases t with
    | nil =>
      rcases List.mem_cons.mp hx with h | h
      · subst h
        exact le_refl _
      · simp at h
    | cons b t2 =>
      have hstep : (a :: b :: t2).getD ((a :: b :: t2).length - 1) 0 =
          (b :: t2).getD ((b :: t2).length - 1) 0 := by
        have h1 : (a :: b :: t2).length - 1 = t2.length + 1 := by simp
        have h2 : (b :: t2).length - 1 = t2.length := by simp
        rw [h1, h2, List.getD_cons_succ]
      rw [hstep]
      rcases List.mem_cons.mp hx with h | h
      · subst h
        have hlt : (b :: t2).length - 1 < (b :: t2).length := by simp
        have hmem : (b :: t2).getD ((b :: t2).length - 1) 0 ∈ b :: t2 := by
          rw [List.getD_eq_getElem _ _ hlt]
          exact List.getElem_mem hlt
        exact ha _ hmem
      · exact sorted_le_getD_last (b :: t2) ht x h

theorem sortedList_perm (l : List ℚ) : (sortedList l).Perm l :=
  List.mergeSort_perm l _

theorem sortedList_sorted (l : List ℚ) : List.Sorted (· ≤ ·) (sortedList l) :=
  List.sorted_mergeSort' l

theorem getD_last_sortedList_eq_pyMax (l : List ℚ) (h : l ≠ []) :
    (sortedList l).getD (l.length - 1) 0 = pyMax l := by
  have hperm := sortedList_perm l
  have hlen : (sortedList l).length = l.length := hperm.length_eq
  have hpos : 0 < l.length := List.length_pos.mpr h
  have hlt : l.length - 1 < (sortedList l).length := by
    rw [hlen]
    omega
  have hmem : (sortedList l).getD (l.length - 1) 0 ∈ l := by
    rw [List.getD_eq_getElem _ _ hlt]
    exact hperm.mem_iff.mp (List.getElem_mem hlt)
  have h1 : (sortedList l).getD (l.length - 1) 0 ≤ pyMax l := le_pyMax l _ hmem
  have h2 : pyMax l ≤ (sortedList l).getD (l.length - 1) 0 := by
    have hmax : pyMax l ∈ sortedList l := hperm.mem_iff.mpr (pyMax_mem l h)
    have := sorted_le_getD_last (sortedList l) (sortedList_sorted l) (pyMax l) hmax
    rwa [hlen] at this
  exact le_antisymm h1 h2

/-- Claim C4: the reported 95th percentile equals the sorted-list element
at zero-based index the floor of 0.95 times the count (written here as
natural division 19 n / 20), and on samples of at most 20 values it is the
maximum, so the two branches of the source agree with the single
formula. -/
theorem claim_C4 (l : List ℚ) (h : l ≠ []) :
    percentile_95 l = (sortedList l).getD (19 * l.length / 20) 0 ∧
    (l.length ≤ 20 → percentile_95 l = pyMax l) := by
  have hpos : 0 < l.length := List.length_pos.mpr h
  constructor
  · rw [percentile_95]
    split_ifs with h20
    · rfl
    · have hidx : 19 * l.length / 20 = l.length - 1 := by omega
      rw [hidx, getD_last_sortedList_eq_pyMax l h]
  · intro h20
    rw [percentile_95, if_neg (by omega)]

/-- Witness for claim C4 at a concrete input. -/
theorem claim_C4_witness :
    percentile_95 [5] = (sortedList [(5:ℚ)]).getD (19 * [(5:ℚ)].length / 20) 0 ∧
    ([(5:ℚ)].length ≤ 20 → percentile_95 [5] = pyMax [5]) :=
  claim_C4 [5] (by simp)

theorem mem_groupChunk {c : Prop} [Decidable c] {name n0 : String}
    {g fields : List (String × ℚ)}
    (hmem : (name, g) ∈
      (if c then ([] : List (String × List (String × ℚ))) else [(n0, fields)])) :
    name = n0 ∧ g = fields := by
  split_ifs at hmem
  · simp at hmem
  · simpa using hmem

theorem cps_group_keys (cd : ℚ → ℚ → ℚ → ℚ → ℚ) (sq : ℚ → ℚ)
    (p1 p2 : List TelemetryPoint) (name : String) (g : List (String × ℚ))
    (hmem : (name, g) ∈ calculate_path_statistics cd sq p1 p2) :
    (name = ("position_stats") ∧ g.map Prod.fst =
      [("mean_distance_m"), ("median_distance_m"), ("std_distance_m"), ("max_distance_m"),
       ("min_distance_m"), ("rms_distance_m"), ("percentile_95_m")]) ∨
    (name = ("depth_stats") ∧ g.map Prod.fst =
      [("mean_diff_m"), ("median_diff_m"), ("std_diff_m"), ("max_diff_m")]) ∨
    (name = ("altitude_stats") ∧ g.map Prod.fst =
      [("mean_diff_m"), ("median_diff_m"), ("std_diff_m"), ("max_diff_m")]) ∨
    (name = ("heading_stats") ∧ g.map Prod.fst =
      [("mean_diff_deg"), ("median_diff_deg"), ("std_diff_deg"), ("max_diff_deg")]) := by
  rw [calculate_path_statistics] at hmem
  split_ifs at hmem with h0
  · simp at hmem
  · simp only [List.mem_append] at hmem
    rcases hmem with ((hm | hm) | hm) | hm
    · exact Or.inl ⟨(mem_groupChunk hm).1, by simp [(mem_groupChunk hm).2]⟩
    · exact Or.inr (Or.inl ⟨(mem_groupChunk hm).1, by simp [(mem_groupChunk hm).2]⟩)
    · exact Or.inr (Or.inr (Or.inl ⟨(mem_groupChunk hm).1, by simp [(mem_groupChunk hm).2]⟩))
    · exact Or.inr (Or.inr (Or.inr ⟨(mem_groupChunk hm).1, by simp [(mem_groupChunk hm).2]⟩))

theorem cap_group_keys (cd : ℚ → ℚ → ℚ → ℚ → ℚ) (sq : ℚ → ℚ)
    (telemetry : List TelemetryPoint) (w : List Waypoint)
    (name : String) (g : List (String × ℚ))
    (hmem : (name, g) ∈ calculate_accuracy_to_planned cd sq telemetry w) :
    (name = ("position_accuracy") ∧ g.map Prod.fst =
      [("mean_error_m"), ("median_error_m"), ("std_error_m"), ("max_error_m"),
       ("rms_error_m"), ("percentile_95_m")]) ∨
    (name = ("depth_accuracy") ∧ g.map Prod.fst =
      [("mean_error_m"), ("median_error_m"), ("std_error_m"), ("max_error_m")]) := by
  rw [calculate_accuracy_to_planned] at hmem
  split_ifs at hmem with h0
  · simp at hmem
  · simp only [List.mem_append] at hmem
    rcases hmem with hm | hm
    · exact Or.inl ⟨(mem_groupChunk hm).1, by simp [(mem_groupChunk hm).2]⟩
    · exact Or.inr ⟨(mem_groupChunk hm).1, by simp [(mem_groupChunk hm).2]⟩

/-- Claim C7 as amended: no statistics group carries a count field, and
the groups are not uniform: the pairwise position group has exactly mean,
median, standard deviation, max, min, rms and the 95th percentile; the
accuracy position group the same minus min; and the depth, altitude and
heading groups only mean, median, standard deviation and max. -/
theorem claim_C7 (cd : ℚ → ℚ → ℚ → ℚ → ℚ) (sq : ℚ → ℚ)
    (p1 p2 telemetry : List TelemetryPoint) (w : List Waypoint)
    (name : String) (g : List (String × ℚ)) :
    ((name, g) ∈ calculate_path_statistics cd sq p1 p2 →
      (name = ("position_stats") ∧ g.map Prod.fst =
        [("mean_distance_m"), ("median_distance_m"), ("std_distance_m"), ("max_distance_m"),
         ("min_distance_m"), ("rms_distance_m"), ("percentile_95_m")]) ∨
      (name = ("depth_stats") ∧ g.map Prod.fst =
        [("mean_diff_m"), ("median_diff_m"), ("std_diff_m"), ("max_diff_m")]) ∨
      (name = ("altitude_stats") ∧ g.map Prod.fst =
        [("mean_diff_m"), ("median_diff_m"), ("std_diff_m"), ("max_diff_m")]) ∨
      (name = ("heading_stats") ∧ g.map Prod.fst =
        [("mean_diff_deg"), ("median_diff_deg"), ("std_diff_deg"), ("max_diff_deg")])) ∧
    ((name, g) ∈ calculate_accuracy_to_planned cd sq telemetry w →
      (name = ("position_accuracy") ∧ g.map Prod.fst =
        [("mean_error_m"), ("median_error_m"), ("std_error_m"), ("max_error_m"),
         ("rms_error_m"), ("percentile_95_m")]) ∨
      (name = ("depth_accuracy") ∧ g.map Prod.fst =
        [("mean_error_m"), ("median_error_m"), ("std_error_m"), ("max_error_m")])) :=
  ⟨cps_group_keys cd sq p1 p2 name g, cap_group_keys cd sq telemetry w name g⟩

theorem cps_concrete_eval : calculate_path_statistics cdOne id [ptA] [ptB] =
    [(("position_stats"),
       [(("mean_distance_m"), (1:ℚ)), (("median_distance_m"), 1), (("std_distance_m"), 0),
        (("max_distance_m"), 1), (("min_distance_m"), 1), (("rms_distance_m"), 1),
        (("percentile_95_m"), 1)]),
     (("depth_stats"),
       [(("mean_diff_m"), (2:ℚ)), (("median_diff_m"), 2), (("std_diff_m"), 0),
        (("max_diff_m"), 2)]),
     (("altitude_stats"),
       [(("mean_diff_m"), (1:ℚ)), (("median_diff_m"), 1), (("std_diff_m"), 0),
        (("max_diff_m"), 1)]),
     (("heading_stats"),
       [(("mean_diff_deg"), (20:ℚ)), (("median_diff_deg"), 20), (("std_diff_deg"), 0),
        (("max_diff_deg"), 20)])] := by
  have hf : find_closest_point cdOne ptA [ptB] = (some ptB, ((1:ℚ) : WithTop ℚ)) := by
    simp [find_closest_point, fcpAux, hasPosition, ptB, pointDist, cdOne]
  have e1 : |(5:ℚ) - 3| = 2 := by norm_num
  have e2 : |(2:ℚ) - 1| = 1 := by norm_num
  have e3 : |(10:ℚ) - 30| = 20 := by norm_num
  have hc : collectDeviations cdOne [ptA] [ptB] = ([1], [2], [1], [20]) := by
    rw [collectDeviations, List.foldl_cons, List.foldl_nil,
      if_pos (show hasPosition ptA by decide), hf]
    simp [ptA, ptB, heading_difference, e1, e2, e3]
    norm_num
  have hr1 : resample_path_by_distance cdOne [ptA] (2⁻¹ : ℚ) = [ptA] := by
    simp [resample_path_by_distance, resampleAux]
  have hr2 : resample_path_by_distance cdOne [ptB] (2⁻¹ : ℚ) = [ptB] := by
    simp [resample_path_by_distance, resampleAux]
  rw [calculate_path_statistics]
  simp [hr1, hr2, hc, mean, median, sortedList, pyMax, pyMin, percentile_95, rmsOf]

/-- Counterexample to claim C7 as stated: at a concrete input the produced
depth group has exactly mean, median, standard deviation and max (so no
count, minimum, rms or 95th percentile), and even the position group,
which has seven statistics, carries no count. -/
theorem claim_C7_counterexample :
    (calculate_path_statistics cdOne id [ptA] [ptB]).lookup ("depth_stats") =
      some [(("mean_diff_m"), (2:ℚ)), (("median_diff_m"), 2), (("std_diff_m"), 0),
        (("max_diff_m"), 2)] ∧
    (calculate_path_statistics cdOne id [ptA] [ptB]).lookup ("position_stats") =
      some [(("mean_distance_m"), (1:ℚ)), (("median_distance_m"), 1), (("std_distance_m"), 0),
        (("max_distance_m"), 1), (("min_distance_m"), 1), (("rms_distance_m"), 1),
        (("percentile_95_m"), 1)] := by
  rw [cps_concrete_eval]
  constructor <;> simp [List.lookup]

/-- Witness for the amended claim C7 at a concrete input. -/
theorem claim_C7_witness :
    ((("depth_stats") : String),
      [(("mean_diff_m"), (2:ℚ)), (("median_diff_m"), 2), (("std_diff_m"), 0),
       (("max_diff_m"), 2)]) ∈ calculate_path_statistics cdOne id [ptA] [ptB] ∧
    ([(("mean_diff_m"), (2:ℚ)), (("median_diff_m"), 2), (("std_diff_m"), 0),
      (("max_diff_m"), 2)].map Prod.fst) =
      [("mean_diff_m"), ("median_diff_m"), ("std_diff_m"), ("max_diff_m")] := by
  have hmem : ((("depth_stats") : String),
      [(("mean_diff_m"), (2:ℚ)), (("median_diff_m"), 2), (("std_diff_m"), 0),
       (("max_diff_m"), 2)]) ∈ calculate_path_statistics cdOne id [ptA] [ptB] := by
    rw [cps_concrete_eval]
    simp
  refine ⟨hmem, ?_⟩
  rcases (claim_C7 cdOne id [ptA] [ptB] [ptA] [wpA] ("depth_stats") _).1 hmem with
    h | h | h | h
  · exact absurd h.1 (by simp)
  · exact h.2
  · exact h.2
  · exact absurd h.1 (by simp)

end CompareMissions
